import Mathlib

/-!
Verification of `lvm_visualizer.py` (guzu/lvm-visualizer).

The Python source is embedded shallowly:
* Python strings are modelled as `List Char`; the string methods the
  program uses (`strip`, `split`, `split('\n')`, `startswith`, `in`,
  `split('/')`, `<` on strings) are translated character by character.
* Python floats are modelled as exact rationals `ℚ`.  The arithmetic the
  program performs is written with the `mkRat`-based wrappers `qadd`,
  `qsub`, `qmul`, `qsum`, which are proved below to agree with the `ℚ`
  field operations (`qadd_eq`, `qmul_eq`, ...); the wrappers exist only
  because the library's `Rat.add`/`Rat.mul` are `@[irreducible]` and so
  cannot be evaluated by `decide` on concrete inputs.
* Python `dict` is modelled as an association list with in-place update
  of an existing key and append of a new key, matching insertion order.
* Exceptions (`IndexError` from `line.split()[2]`, `ValueError` from
  `int(...)`, `ZeroDivisionError`, `KeyError`) are modelled by `Option`:
  `none` means the corresponding Python code raises.
-/

namespace LVM

/-! ## Python string primitives -/

/-- The whitespace set of Python `str.strip()` / `str.split()` (ASCII part;
the diagnostic text handled by the program contains only these). -/
def pyIsSpace (c : Char) : Bool :=
  c = ' ' || c = '\t' || c = '\n' || c = '\r' || c = '\x0b' || c = '\x0c'

/-- Drop leading whitespace. -/
def stripLeft : List Char → List Char
  | [] => []
  | c :: cs => if pyIsSpace c then stripLeft cs else c :: cs

/-- Python `str.strip()`: drop leading and trailing whitespace. -/
def pyStrip (s : List Char) : List Char :=
  stripLeft (stripLeft s.reverse).reverse

/-- Python `s.startswith(p)`. -/
def pyStartsWith : List Char → List Char → Bool
  | _, [] => true
  | [], _ :: _ => false
  | c :: cs, p :: ps => c == p && pyStartsWith cs ps

/-- Python `sub in s` (contiguous substring test). -/
def pyIn (sub : List Char) : List Char → Bool
  | [] => sub.isEmpty
  | c :: cs => pyStartsWith (c :: cs) sub || pyIn sub cs

/-- Python `s.split(sep)` for a one-character separator: keeps empty pieces,
always returns at least one piece. -/
def splitOnChar (sep : Char) : List Char → List (List Char)
  | [] => [[]]
  | c :: cs =>
    if c = sep then [] :: splitOnChar sep cs
    else
      match splitOnChar sep cs with
      | [] => [[c]]
      | l :: ls => (c :: l) :: ls

/-- Accumulating worker for `pyTokens`. -/
def pyTokensGo (cur : List Char) : List Char → List (List Char)
  | [] => if cur.isEmpty then [] else [cur.reverse]
  | c :: cs =>
    if pyIsSpace c then
      if cur.isEmpty then pyTokensGo [] cs else cur.reverse :: pyTokensGo [] cs
    else pyTokensGo (c :: cur) cs

/-- Python `s.split()` with no argument: split on whitespace runs,
discarding empty tokens. -/
def pyTokens (s : List Char) : List (List Char) :=
  pyTokensGo [] s

/-- Python string comparison `a < b`: lexicographic on code points. -/
def pyLexLt : List Char → List Char → Bool
  | [], [] => false
  | [], _ :: _ => true
  | _ :: _, [] => false
  | a :: as, b :: bs => a < b || (a == b && pyLexLt as bs)

/-- Python `a <= b` on strings, as `not (b < a)`. -/
def pyStrLe (a b : String) : Bool :=
  !(pyLexLt b.data a.data)

/-- The order `pyStrLe` as a relation, for the library's sorting functions.
`sorted(...)` in Python sorts ascending by exactly this order. -/
def pyStrLeRel : String → String → Prop :=
  fun a b => pyStrLe a b = true

instance : DecidableRel pyStrLeRel :=
  fun a b => instDecidableEqBool (pyStrLe a b) true

/-- Python `sorted(...)` on strings. -/
def pySorted (l : List String) : List String :=
  List.insertionSort pyStrLeRel l

/-! ## Exact rational arithmetic (kernel-evaluable wrappers) -/

/-- Product on `ℚ`, via `mkRat` (proved equal to `a * b` in `qmul_eq`). -/
def qmul (a b : ℚ) : ℚ := mkRat (a.num * b.num) (a.den * b.den)

/-- Sum on `ℚ`, via `mkRat` (proved equal to `a + b` in `qadd_eq`). -/
def qadd (a b : ℚ) : ℚ := mkRat (a.num * b.den + b.num * a.den) (a.den * b.den)

/-- Difference on `ℚ`, via `mkRat` (proved equal to `a - b` in `qsub_eq`). -/
def qsub (a b : ℚ) : ℚ := mkRat (a.num * b.den - b.num * a.den) (a.den * b.den)

/-- Python `sum(...)` of rationals: left fold of addition starting at `0`. -/
def qsum (l : List ℚ) : ℚ := l.foldl qadd 0

/-- Decimal digit run → natural number. -/
def digitsToNat (ds : List Char) : ℕ :=
  ds.foldl (fun n c => 10 * n + (c.toNat - 48)) 0

/-- Python `float(...)` applied to a string matched by `\d+\.?\d*`,
as an exact rational: `ip.fp` is `(ip·10^k + fp) / 10^k`. -/
def ratOfNumber (s : List Char) : ℚ :=
  let ip := s.takeWhile Char.isDigit
  let rest := s.dropWhile Char.isDigit
  match rest with
  | '.' :: fp0 =>
    let fp := fp0.takeWhile Char.isDigit
    mkRat (digitsToNat ip * 10 ^ fp.length + digitsToNat fp : ℕ) (10 ^ fp.length)
  | _ => mkRat (digitsToNat ip : ℕ) 1

/-- Model of `re.search(r'(\d+\.?\d*)', line)`: the leftmost match starts at the first
digit; `\d+` then takes the maximal digit run, `\.?` one optional dot, `\d*`
the maximal following digit run. Returns the matched text. -/
def findNumber : List Char → Option (List Char)
  | [] => none
  | c :: cs =>
    if c.isDigit then
      let ds := List.takeWhile Char.isDigit (c :: cs)
      let rest := List.dropWhile Char.isDigit (c :: cs)
      match rest with
      | '.' :: rest2 => some (ds ++ '.' :: List.takeWhile Char.isDigit rest2)
      | _ => some ds
    else findNumber cs

/-- Python `int(tok)` on a whitespace-free token: optional sign followed by a
nonempty digit run; anything else raises `ValueError` (`none`). -/
def pyInt (s : List Char) : Option ℤ :=
  match s with
  | '+' :: ds =>
    if !ds.isEmpty && ds.all Char.isDigit then some (digitsToNat ds) else none
  | '-' :: ds =>
    if !ds.isEmpty && ds.all Char.isDigit then some (-(digitsToNat ds : ℤ)) else none
  | ds =>
    if !ds.isEmpty && ds.all Char.isDigit then some (digitsToNat ds) else none

/-- Try the pattern `Physical extent (\d+) to (\d+)` anchored at the start of
`s`. Backtracking cannot rescue a failed `\d+ to`, because `' '` is not a
digit, so the greedy reading is exact. -/
def matchExtentAt (s : List Char) : Option (ℕ × ℕ) :=
  if pyStartsWith s ("Physical extent ".data) then
    let r0 := s.drop 16
    let d1 := r0.takeWhile Char.isDigit
    let r1 := r0.dropWhile Char.isDigit
    if d1.isEmpty then none
    else if pyStartsWith r1 (" to ".data) then
      let r2 := r1.drop 4
      let d2 := r2.takeWhile Char.isDigit
      if d2.isEmpty then none else some (digitsToNat d1, digitsToNat d2)
    else none
  else none

/-- Model of `re.search(r'Physical extent (\d+) to (\d+)', line)`: leftmost match. -/
def findExtent : List Char → Option (ℕ × ℕ)
  | [] => none
  | c :: cs =>
    match matchExtentAt (c :: cs) with
    | some r => some r
    | none => findExtent cs

/-- Python `s.split('/')[-1]`: the final path component. -/
def lastComponent (s : List Char) : List Char :=
  (splitOnChar '/' s).getLastD []

/-! ## Data model (`parse_pvdisplay` result) -/

/-- One physical segment, the dict
`{'start': .., 'end': .., 'lv': .., 'size': ..}` appended at line 83 of the
source (`stop` embeds the source's key `'end'`, a Lean keyword). -/
structure Segment where
  start : ℕ
  stop : ℕ
  lv : String
  size : ℚ
deriving DecidableEq

/-- The per-physical-volume dict created for each `PV Name` line. -/
structure PVInfo where
  vg : String
  size : ℚ
  free_pe : ℤ
  total_pe : ℤ
  pe_size : ℚ
  segments : List Segment
deriving DecidableEq

/-- The dict literal at lines 39–46 of the source: default field values for a
fresh physical volume, `pe_size` defaulting to `4.19`. -/
def defaultPVInfo : PVInfo :=
  { vg := "", size := 0, free_pe := 0, total_pe := 0, pe_size := mkRat 419 100, segments := [] }

/-- Python `dict` lookup on an association list. -/
def dictGet? {α : Type} (k : String) : List (String × α) → Option α
  | [] => none
  | (k', v) :: rest => if k' = k then some v else dictGet? k rest

/-- Python `dict` store: overwrite an existing key in place, else append. -/
def dictInsert {α : Type} (k : String) (v : α) : List (String × α) → List (String × α)
  | [] => [(k, v)]
  | (k', v') :: rest =>
    if k' = k then (k, v) :: rest else (k', v') :: dictInsert k v rest

/-- The loop state of `parse_pvdisplay`: the `pvs` dict, `current_pv`, and
the `in_segments` flag. -/
structure PState where
  pvs : List (String × PVInfo)
  current_pv : Option String
  in_segments : Bool
deriving DecidableEq

/-- Python truthiness of `current_pv` (`None` and `''` are falsy), combined
with the value itself: `some cp` iff `current_pv` is truthy. -/
def currentOf (s : PState) : Option String :=
  match s.current_pv with
  | none => none
  | some c => if c = "" then none else some c

/-- The one-line lookahead at lines 70–80 of the source: decide the owning
logical-volume name from the line following an extent-range line (`none`
argument means the extent line was the last line). Returns `none` when the
Python code raises `IndexError` (`next_line.split()[2]` on a short line). -/
def lookaheadLV (next? : Option (List Char)) : Option String :=
  match next? with
  | none => some "FREE"
  | some nraw =>
    let nl := pyStrip nraw
    if pyIn "FREE".data nl then some "FREE"
    else if pyIn "Logical volume".data nl then
      match (pyTokens nl).get? 2 with
      | none => none
      | some tok => some (String.mk (lastComponent tok))
    else some "UNKNOWN"

/-- One iteration of the `while i < len(lines)` loop of `parse_pvdisplay`
(lines 34–89 of the source) on the raw line `raw`, with `next?` the raw
following line (`lines[i+1]`) if any. `none` means an exception is raised. -/
def step (s : PState) (raw : List Char) (next? : Option (List Char)) : Option PState :=
  let line := pyStrip raw
  if pyStartsWith line "PV Name".data then
    match (pyTokens line).get? 2 with
    | none => none
    | some tok =>
      let k := String.mk tok
      some { pvs := dictInsert k defaultPVInfo s.pvs, current_pv := some k, in_segments := false }
  else if pyStartsWith line "VG Name".data && (currentOf s).isSome then
    match (pyTokens line).get? 2 with
    | none => none
    | some tok =>
      match currentOf s with
      | none => some s
      | some cp =>
        match dictGet? cp s.pvs with
        | none => none
        | some info => some { s with pvs := dictInsert cp { info with vg := String.mk tok } s.pvs }
  else if pyStartsWith line "PV Size".data && (currentOf s).isSome then
    match findNumber line with
    | none => some s
    | some num =>
      match currentOf s with
      | none => some s
      | some cp =>
        match dictGet? cp s.pvs with
        | none => none
        | some info => some { s with pvs := dictInsert cp { info with size := ratOfNumber num } s.pvs }
  else if pyStartsWith line "PE Size".data && (currentOf s).isSome then
    match findNumber line with
    | none => some s
    | some num =>
      match currentOf s with
      | none => some s
      | some cp =>
        match dictGet? cp s.pvs with
        | none => none
        | some info => some { s with pvs := dictInsert cp { info with pe_size := ratOfNumber num } s.pvs }
  else if pyStartsWith line "Free PE".data && (currentOf s).isSome then
    match (pyTokens line).get? 2 with
    | none => none
    | some tok =>
      match pyInt tok with
      | none => none
      | some n =>
        match currentOf s with
        | none => some s
        | some cp =>
          match dictGet? cp s.pvs with
          | none => none
          | some info => some { s with pvs := dictInsert cp { info with free_pe := n } s.pvs }
  else if pyStartsWith line "Total PE".data && (currentOf s).isSome then
    match (pyTokens line).get? 2 with
    | none => none
    | some tok =>
      match pyInt tok with
      | none => none
      | some n =>
        match currentOf s with
        | none => some s
        | some cp =>
          match dictGet? cp s.pvs with
          | none => none
          | some info => some { s with pvs := dictInsert cp { info with total_pe := n } s.pvs }
  else if pyStartsWith line "--- Physical Segments ---".data then
    some { s with in_segments := true }
  else if s.in_segments && pyIn "Physical extent".data line && (currentOf s).isSome then
    match currentOf s with
    | none => some s
    | some cp =>
      match findExtent line with
      | none => some s
      | some (a, b) =>
        match lookaheadLV next? with
        | none => none
        | some lvn =>
          match dictGet? cp s.pvs with
          | none => none
          | some info =>
            let info' := { info with segments :=
              info.segments ++ [⟨a, b, lvn, qmul (mkRat ((b : ℤ) - (a : ℤ) + 1) 1) info.pe_size⟩] }
            some { s with pvs := dictInsert cp info' s.pvs }
  else some s

/-- Run the parser loop over the line list, feeding each line its raw
successor for the one-line lookahead. -/
def runLines : PState → List (List Char) → Option PState
  | s, [] => some s
  | s, l :: rest =>
    match step s l rest.head? with
    | none => none
    | some s' => runLines s' rest

/-- Initial loop state: `pvs = {}`, `current_pv = None`, `in_segments = False`. -/
def initState : PState := { pvs := [], current_pv := none, in_segments := false }

/-- Model of `LVMAnalyzer.parse_pvdisplay` (lines 26–91 of the source):
`none` means the Python call raises an exception. -/
def parse_pvdisplay (content : String) : Option (List (String × PVInfo)) :=
  (runLines initState (splitOnChar '\n' (pyStrip content.data))).map PState.pvs

/-! ## `assign_colors` (lines 93–106 of the source) -/

/-- The palette `self.color_palette` (lines 20–24 of the source). -/
def color_palette : List String :=
  ["#FF6B6B", "#4ECDC4", "#45B7D1", "#96CEB4", "#FFEAA7",
   "#DDA0DD", "#98D8C8", "#F7DC6F", "#BB8FCE", "#85C1E9",
   "#F8C471", "#82E0AA", "#F1948A", "#85C1E9", "#D7BDE2"]

/-- All logical-volume names over all segments of all volumes, with
multiplicity and in traversal order (`all_lvs` before `set(...)` semantics). -/
def allLvs (pvs : List (String × PVInfo)) : List String :=
  (pvs.map (fun p => p.2.segments.map Segment.lv)).flatten

/-- Model of `sorted(all_lvs)` where `all_lvs` is a Python `set`: the distinct names
in ascending string order. -/
def sortedLvs (pvs : List (String × PVInfo)) : List String :=
  pySorted (allLvs pvs).dedup

/-- The `for lv in sorted(all_lvs)` loop of `assign_colors`: `FREE` gets the
fixed light gray and does not advance `color_idx`; every other name gets
`color_palette[color_idx % len(color_palette)]` and advances it. -/
def assignColorsGo (idx : ℕ) : List String → List (String × String)
  | [] => []
  | lv :: rest =>
    if lv = "FREE" then ("FREE", "#E8E8E8") :: assignColorsGo idx rest
    else (lv, color_palette.getD (idx % color_palette.length) "") :: assignColorsGo (idx + 1) rest

/-- Model of `LVMAnalyzer.assign_colors`: the resulting `self.lv_colors` mapping
(on a fresh analyzer). -/
def assign_colors (pvs : List (String × PVInfo)) : List (String × String) :=
  assignColorsGo 0 (sortedLvs pvs)

/-! ## `print_summary` (lines 619–662 of the source) -/

/-- Model of `sum(s['size'] for s in pv_data['segments'] if s['lv'] != 'FREE')`
(line 635 of the source). -/
def usedSize (info : PVInfo) : ℚ :=
  qsum ((info.segments.filter (fun g => g.lv ≠ "FREE")).map Segment.size)

/-- Model of `sum(s['size'] for s in pv_data['segments'] if s['lv'] == 'FREE')`
(line 636 of the source). -/
def freeSize (info : PVInfo) : ℚ :=
  qsum ((info.segments.filter (fun g => g.lv = "FREE")).map Segment.size)

/-- The per-volume loop of `print_summary`: accumulate
`(total_size, total_used, total_free)` over the sorted volume names;
`none` models `ZeroDivisionError` at
`used_size/pv_data['size']*100` when a volume's size is `0`
(and `KeyError` on a key not in the dict, unreachable from parsing). -/
def printSummaryGo (pvs : List (String × PVInfo)) :
    List String → ℚ × ℚ × ℚ → Option (ℚ × ℚ × ℚ)
  | [], acc => some acc
  | name :: rest, (ts, tu, tf) =>
    match dictGet? name pvs with
    | none => none
    | some info =>
      let used := usedSize info
      let free := freeSize info
      if info.size = 0 then none
      else printSummaryGo pvs rest (qadd ts info.size, qadd tu used, qadd tf free)

/-- Model of `LVMAnalyzer.print_summary`: the totals it accumulates and the global
usage percentage it prints last; `none` models `ZeroDivisionError`, raised
per volume when that volume's size is `0` (line 640 of the source) and
globally when the total capacity is `0` (line 662). -/
def print_summary (pvs : List (String × PVInfo)) : Option (ℚ × ℚ × ℚ × ℚ) :=
  match printSummaryGo pvs (pySorted (pvs.map Prod.fst)) (0, 0, 0) with
  | none => none
  | some (ts, tu, tf) => if ts = 0 then none else some (ts, tu, tf, tu / ts * 100)

/-! ## Auxiliary notions used by the theorems -/

/-- The set of extent indices covered by a segment: `[start, end]` inclusive. -/
def segIcc (g : Segment) : Finset ℕ := Finset.Icc g.start g.stop

/-- Two segments overlap when some extent index lies in both ranges. -/
def segsOverlap (x y : Segment) : Bool :=
  decide (segIcc x ∩ segIcc y).Nonempty

/-- No two segments of the list overlap. -/
def overlapFree : List Segment → Bool
  | [] => true
  | g :: rest => rest.all (fun g2 => !(segsOverlap g g2)) && overlapFree rest

/-- The segment list partitions the extent range `[0, T-1]`: every segment is
a well-formed nonempty range, the ranges are pairwise disjoint (no overlaps),
and their union is exactly `{0, ..., T-1}` (no gaps). -/
def coversExactly (segs : List Segment) (T : ℕ) : Prop :=
  (∀ g ∈ segs, g.start ≤ g.stop) ∧
  segs.Pairwise (fun x y => Disjoint (segIcc x) (segIcc y)) ∧
  (segs.map segIcc).foldr (· ∪ ·) ∅ = Finset.range T

/-- Sufficient crash-freedom condition for one parsed line (with its raw
successor): recognized three-token field lines do have three tokens, integer
fields hold integer literals, and a lookahead line naming a logical volume
has a path token. -/
def lineSafe (raw : List Char) (next? : Option (List Char)) : Bool :=
  let line := pyStrip raw
  (if pyStartsWith line "PV Name".data || pyStartsWith line "VG Name".data then
    3 ≤ (pyTokens line).length else true) &&
  (if pyStartsWith line "Free PE".data || pyStartsWith line "Total PE".data then
    (match (pyTokens line).get? 2 with
     | some t => (pyInt t).isSome
     | none => false) else true) &&
  (match next? with
   | some nraw =>
     if pyIn "Physical extent".data line && !(pyIn "FREE".data (pyStrip nraw)) &&
        pyIn "Logical volume".data (pyStrip nraw) then
       3 ≤ (pyTokens (pyStrip nraw)).length
     else true
   | none => true)

/-- Check `lineSafe` for every line of the list, each with its successor. -/
def linesSafe : List (List Char) → Bool
  | [] => true
  | l :: rest => lineSafe l rest.head? && linesSafe rest

/-- Parser-state invariant: a truthy `current_pv` is always a key of `pvs`. -/
def Inv (s : PState) : Prop :=
  ∀ cp, currentOf s = some cp → (dictGet? cp s.pvs).isSome = true

/-- A well-formed input in the format of `pvdisplay -m --units M`: one device,
extents 0–8191 owned by `lv-root`, extents 8192–121816 free, extent size
4.19 MB. -/
def exampleInput : String :=
  "  --- Physical volume ---\n  PV Name               /dev/sda2\n  VG Name               vg0\n  PV Size               510413.23 MB\n  PE Size               4.19 MB\n  Total PE              121817\n  Free PE               113625\n   --- Physical Segments ---\n  Physical extent 0 to 8191:\n    Logical volume      /dev/vg0/lv-root\n  Physical extent 8192 to 121816:\n    FREE\n"

/-- An input whose two extent-range lines repeat the same range, producing
two overlapping segments on one volume. -/
def overlapInput : String :=
  "PV Name /dev/sda\n--- Physical Segments ---\nPhysical extent 0 to 5:\nPhysical extent 0 to 5:"

/-- A concrete volume whose two segments exactly cover extents 0–4:
`[0,1]` owned (size 2·4.19) and `[2,4]` free (size 3·4.19). -/
def coveragePV : PVInfo :=
  { vg := "", size := 0, free_pe := 0, total_pe := 5, pe_size := mkRat 419 100,
    segments := [⟨0, 1, "lv-a", mkRat 419 50⟩, ⟨2, 4, "FREE", mkRat 1257 100⟩] }

/-- The physical volume that parsing `exampleInput` yields. -/
def examplePV : PVInfo :=
  { vg := "vg0", size := mkRat 51041323 100, free_pe := 113625, total_pe := 121817,
    pe_size := mkRat 419 100,
    segments := [⟨0, 8191, "lv-root", mkRat 858112 25⟩,
                 ⟨8192, 121816, "FREE", mkRat 1904355 4⟩] }

/-! ## The evaluable arithmetic wrappers agree with the `ℚ` operations -/

theorem qmul_eq (a b : ℚ) : qmul a b = a * b := by
  rw [qmul, Rat.mkRat_eq_div]
  conv_rhs => rw [← Rat.num_div_den a, ← Rat.num_div_den b]
  have ha : ((a.den : ℚ)) ≠ 0 := by exact_mod_cast a.den_nz
  have hb : ((b.den : ℚ)) ≠ 0 := by exact_mod_cast b.den_nz
  field_simp

theorem qadd_eq (a b : ℚ) : qadd a b = a + b := by
  rw [qadd, Rat.mkRat_eq_div]
  conv_rhs => rw [← Rat.num_div_den a, ← Rat.num_div_den b]
  have ha : ((a.den : ℚ)) ≠ 0 := by exact_mod_cast a.den_nz
  have hb : ((b.den : ℚ)) ≠ 0 := by exact_mod_cast b.den_nz
  field_simp

theorem qsub_eq (a b : ℚ) : qsub a b = a - b := by
  rw [qsub, Rat.mkRat_eq_div]
  conv_rhs => rw [← Rat.num_div_den a, ← Rat.num_div_den b]
  have ha : ((a.den : ℚ)) ≠ 0 := by exact_mod_cast a.den_nz
  have hb : ((b.den : ℚ)) ≠ 0 := by exact_mod_cast b.den_nz
  field_simp
  ring

theorem qadd_foldl (l : List ℚ) (z : ℚ) : l.foldl qadd z = z + l.sum := by
  induction l generalizing z with
  | nil => simp [List.foldl]
  | cons x xs ih => simp [List.foldl, qadd_eq, ih, add_assoc]

theorem qsum_eq (l : List ℚ) : qsum l = l.sum := by
  rw [qsum, qadd_foldl, zero_add]

/-! ## Helper lemmas on the string primitives and the dict model -/

theorem pyStartsWith_iff (s p : List Char) :
    pyStartsWith s p = true ↔ ∃ t, s = p ++ t := by
  induction p generalizing s with
  | nil => simp [pyStartsWith]
  | cons a ps ih =>
    cases s with
    | nil => simp [pyStartsWith]
    | cons c cs =>
      simp only [pyStartsWith, Bool.and_eq_true, beq_iff_eq, ih, List.cons_append,
        List.cons.injEq]
      constructor
      · rintro ⟨rfl, t, rfl⟩
        exact ⟨t, rfl, rfl⟩
      · rintro ⟨t, rfl, rfl⟩
        exact ⟨rfl, t, rfl⟩

theorem pyStartsWith_append_of_le (p q t : List Char) (h : q.length ≤ p.length) :
    pyStartsWith (p ++ t) q = pyStartsWith p q := by
  induction q generalizing p with
  | nil => simp [pyStartsWith]
  | cons a qs ih =>
    cases p with
    | nil => simp at h
    | cons b ps =>
      simp only [List.cons_append, pyStartsWith]
      rw [show ps.append t = ps ++ t from rfl, ih ps (by simpa using h)]

theorem dictGet?_insert_self {α : Type} (k : String) (v : α) (l : List (String × α)) :
    dictGet? k (dictInsert k v l) = some v := by
  induction l with
  | nil => simp [dictInsert, dictGet?]
  | cons p rest ih =>
    obtain ⟨k', v'⟩ := p
    by_cases h : k' = k <;> simp [dictInsert, dictGet?, h, ih]

theorem dictGet?_insert_ne {α : Type} (key k : String) (v : α) (l : List (String × α))
    (h : key ≠ k) : dictGet? key (dictInsert k v l) = dictGet? key l := by
  induction l with
  | nil => simp [dictInsert, dictGet?, Ne.symm h]
  | cons p rest ih =>
    obtain ⟨k', v'⟩ := p
    by_cases h1 : k' = k
    · subst h1
      simp [dictInsert, dictGet?, Ne.symm h]
    · by_cases h2 : k' = key <;> simp [dictInsert, dictGet?, h1, h2, ih, h]

theorem dictGet?_insert_isSome {α : Type} (key k : String) (v : α) (l : List (String × α))
    (h : (dictGet? key l).isSome = true) :
    (dictGet? key (dictInsert k v l)).isSome = true := by
  by_cases hk : key = k
  · subst hk
    rw [dictGet?_insert_self]
    rfl
  · rw [dictGet?_insert_ne key k v l hk]
    exact h

/-! ## Claim C1 -/

/-- C1: the claim says each usage-percentage division in `print_summary` is
guarded against a zero total capacity.  It is not: the code divides
unconditionally, so a volume whose parsed size stayed `0` (no `PV Size`
line) raises `ZeroDivisionError` at line 640, and an empty volume map
raises it at line 662; the model's `print_summary` returns `none` (crash)
at both failing inputs. -/
theorem c1_print_summary_divides_by_zero :
    (parse_pvdisplay "").bind print_summary = none ∧
    (parse_pvdisplay "PV Name /dev/sda2").bind print_summary = none := by
  constructor <;> decide

/-! ## Claim C6 -/

/-- C6: for the concrete input `exampleInput` (extents 0–8191 owned by
`lv-root`, extents 8192–121816 free, extent size 4.19), parsing followed by
the summary sums yields used = 8192·4.19, free = 113625·4.19, and
used + free = 121817·4.19 (all in MB). -/
theorem c6_example_sizes :
    ∃ info, parse_pvdisplay exampleInput = some [("/dev/sda2", info)] ∧
      usedSize info = 8192 * (419 / 100 : ℚ) ∧
      freeSize info = 113625 * (419 / 100 : ℚ) ∧
      usedSize info + freeSize info = 121817 * (419 / 100 : ℚ) := by
  have hu : usedSize examplePV = mkRat 858112 25 := by decide
  have hf : freeSize examplePV = mkRat 1904355 4 := by decide
  refine ⟨examplePV, by decide, ?_, ?_, ?_⟩
  · rw [hu, Rat.mkRat_eq_div]
    norm_num
  · rw [hf, Rat.mkRat_eq_div]
    norm_num
  · rw [hu, hf, Rat.mkRat_eq_div, Rat.mkRat_eq_div]
    norm_num

/-! ## Claim C7 -/

/-- Any parsing step changes the `pvs` dict in one of four ways: not at all,
inserting a fresh default entry (`PV Name`), rewriting one entry without
touching its segments (field lines), or appending one segment to one entry. -/
theorem step_pvs_shape (s : PState) (raw : List Char) (next? : Option (List Char)) (s' : PState)
    (h : step s raw next? = some s') :
    s'.pvs = s.pvs ∨
    (∃ k, s'.pvs = dictInsert k defaultPVInfo s.pvs) ∨
    (∃ cp info info', dictGet? cp s.pvs = some info ∧ s'.pvs = dictInsert cp info' s.pvs ∧
      info'.segments = info.segments) ∨
    (∃ cp info g, dictGet? cp s.pvs = some info ∧
      s'.pvs = dictInsert cp { info with segments := info.segments ++ [g] } s.pvs) := by
  unfold step at h
  dsimp only at h
  repeat' split at h
  all_goals (first | exact (Option.noConfusion h) | (injection h with h; subst h))
  all_goals first
    | exact Or.inl rfl
    | exact Or.inr (Or.inl ⟨_, rfl⟩)
    | (rename_i heq0; exact Or.inr (Or.inr (Or.inl ⟨_, _, _, heq0, rfl, rfl⟩)))
    | (rename_i heq0; exact Or.inr (Or.inr (Or.inr ⟨_, _, _, heq0, rfl⟩)))

/-- C7 counterexample: parsing `overlapInput` (two extent-range lines with
the same range 0–5) yields one volume with two segments covering the same
extent range, so the no-overlap half of the claim fails. -/
theorem c7_counterexample_overlap :
    ((parse_pvdisplay overlapInput).bind (dictGet? "/dev/sda")).map
        (fun i => (i.segments.map (fun g => (g.start, g.stop)), overlapFree i.segments)) =
      some ([(0, 5), (0, 5)], false) := by decide

/-- C7 (amended): a volume's segment list is kept in parse order — a parsing
step never reorders or rewrites existing segments: it leaves the list
unchanged, resets it to `[]` (a reappearing `PV Name` line), or appends
exactly one segment at its end.  The original no-overlap half of the claim
is refuted by `c7_counterexample_overlap`. -/
theorem c7_amended_parse_order (s : PState) (raw : List Char) (next? : Option (List Char))
    (s' : PState) (pv : String) (h : step s raw next? = some s') :
    (dictGet? pv s'.pvs).map PVInfo.segments = (dictGet? pv s.pvs).map PVInfo.segments ∨
    (dictGet? pv s'.pvs).map PVInfo.segments = some [] ∨
    ∃ old g, (dictGet? pv s.pvs).map PVInfo.segments = some old ∧
      (dictGet? pv s'.pvs).map PVInfo.segments = some (old ++ [g]) := by
  rcases step_pvs_shape s raw next? s' h with
    h1 | ⟨k, h1⟩ | ⟨cp, info, info', hget, h1, hsg⟩ | ⟨cp, info, g, hget, h1⟩
  · rw [h1]
    exact Or.inl rfl
  · by_cases hpv : pv = k
    · subst hpv
      rw [h1, dictGet?_insert_self]
      exact Or.inr (Or.inl (by simp [defaultPVInfo]))
    · rw [h1, dictGet?_insert_ne pv k _ _ hpv]
      exact Or.inl rfl
  · by_cases hpv : pv = cp
    · subst hpv
      rw [h1, dictGet?_insert_self, hget]
      exact Or.inl (by simp [hsg])
    · rw [h1, dictGet?_insert_ne pv cp _ _ hpv]
      exact Or.inl rfl
  · by_cases hpv : pv = cp
    · subst hpv
      rw [h1, dictGet?_insert_self, hget]
      exact Or.inr (Or.inr ⟨info.segments, g, rfl, rfl⟩)
    · rw [h1, dictGet?_insert_ne pv cp _ _ hpv]
      exact Or.inl rfl

/-- Witness for `c7_amended_parse_order` at a concrete step. -/
theorem c7_amended_parse_order_witness :
    (dictGet? "/dev/sda"
        (⟨[("/dev/sda", defaultPVInfo)], some "/dev/sda", false⟩ : PState).pvs).map
          PVInfo.segments =
      (dictGet? "/dev/sda" initState.pvs).map PVInfo.segments ∨
    (dictGet? "/dev/sda"
        (⟨[("/dev/sda", defaultPVInfo)], some "/dev/sda", false⟩ : PState).pvs).map
          PVInfo.segments = some [] ∨
    ∃ old g, (dictGet? "/dev/sda" initState.pvs).map PVInfo.segments = some old ∧
      (dictGet? "/dev/sda"
          (⟨[("/dev/sda", defaultPVInfo)], some "/dev/sda", false⟩ : PState).pvs).map
            PVInfo.segments = some (old ++ [g]) :=
  c7_amended_parse_order initState ("PV Name /dev/sda".data) none
    ⟨[("/dev/sda", defaultPVInfo)], some "/dev/sda", false⟩ "/dev/sda" (by decide)

/-! ## Claim C8 -/

/-- When a parsing step takes the segment branch (state and line hypotheses
below), it appends exactly the segment decided by the one-line lookahead,
with size `(end - start + 1) * pe_size` at the current `pe_size`. -/
theorem step_segment_append (s : PState) (raw : List Char) (next? : Option (List Char))
    (cp : String) (info : PVInfo) (a b : ℕ) (lvn : String)
    (h1 : pyStartsWith (pyStrip raw) "PV Name".data = false)
    (h2 : pyStartsWith (pyStrip raw) "VG Name".data = false)
    (h3 : pyStartsWith (pyStrip raw) "PV Size".data = false)
    (h4 : pyStartsWith (pyStrip raw) "PE Size".data = false)
    (h5 : pyStartsWith (pyStrip raw) "Free PE".data = false)
    (h6 : pyStartsWith (pyStrip raw) "Total PE".data = false)
    (h7 : pyStartsWith (pyStrip raw) "--- Physical Segments ---".data = false)
    (hseg : s.in_segments = true)
    (hin : pyIn "Physical extent".data (pyStrip raw) = true)
    (hcp : currentOf s = some cp)
    (hfe : findExtent (pyStrip raw) = some (a, b))
    (hla : lookaheadLV next? = some lvn)
    (hget : dictGet? cp s.pvs = some info) :
    step s raw next? = some { s with pvs := dictInsert cp { info with segments := info.segments ++ [⟨a, b, lvn, qmul (mkRat ((b : ℤ) - (a : ℤ) + 1) 1) info.pe_size⟩] } s.pvs } := by
  unfold step
  dsimp only
  simp only [h1, h2, h3, h4, h5, h6, h7, hseg, hin, hcp, hfe, hla, hget,
    Option.isSome_some, Bool.false_and, Bool.and_true, Bool.true_and, Bool.and_self,
    Bool.false_eq_true, if_false, ite_false, if_true, ite_true]

/-- C8: when an extent-range line is the last line of the input, the one-line
lookahead sees no following line (`none`) and the appended segment is tagged
`FREE`, not `UNKNOWN`. -/
theorem c8_last_line_is_free (s : PState) (raw : List Char)
    (cp : String) (info : PVInfo) (a b : ℕ)
    (h1 : pyStartsWith (pyStrip raw) "PV Name".data = false)
    (h2 : pyStartsWith (pyStrip raw) "VG Name".data = false)
    (h3 : pyStartsWith (pyStrip raw) "PV Size".data = false)
    (h4 : pyStartsWith (pyStrip raw) "PE Size".data = false)
    (h5 : pyStartsWith (pyStrip raw) "Free PE".data = false)
    (h6 : pyStartsWith (pyStrip raw) "Total PE".data = false)
    (h7 : pyStartsWith (pyStrip raw) "--- Physical Segments ---".data = false)
    (hseg : s.in_segments = true)
    (hin : pyIn "Physical extent".data (pyStrip raw) = true)
    (hcp : currentOf s = some cp)
    (hfe : findExtent (pyStrip raw) = some (a, b))
    (hget : dictGet? cp s.pvs = some info) :
    lookaheadLV none = some "FREE" ∧
    step s raw none = some { s with pvs := dictInsert cp { info with segments := info.segments ++ [⟨a, b, "FREE", qmul (mkRat ((b : ℤ) - (a : ℤ) + 1) 1) info.pe_size⟩] } s.pvs } :=
  ⟨rfl, step_segment_append s raw none cp info a b "FREE"
    h1 h2 h3 h4 h5 h6 h7 hseg hin hcp hfe rfl hget⟩

/-- Witness for `c8_last_line_is_free`: the final line of `overlapInput`
is an extent-range line, and its segment is tagged `FREE`. -/
theorem c8_last_line_is_free_witness :
    lookaheadLV none = some "FREE" ∧
    step ⟨[("/dev/sda", defaultPVInfo)], some "/dev/sda", true⟩
        ("Physical extent 0 to 5:".data) none =
      some ⟨dictInsert "/dev/sda" { defaultPVInfo with segments := defaultPVInfo.segments ++ [⟨0, 5, "FREE", qmul (mkRat ((5 : ℤ) - (0 : ℤ) + 1) 1) defaultPVInfo.pe_size⟩] } [("/dev/sda", defaultPVInfo)], some "/dev/sda", true⟩ :=
  c8_last_line_is_free ⟨[("/dev/sda", defaultPVInfo)], some "/dev/sda", true⟩
    ("Physical extent 0 to 5:".data) "/dev/sda" defaultPVInfo 0 5
    (by decide) (by decide) (by decide) (by decide) (by decide) (by decide) (by decide)
    rfl (by decide) rfl (by decide) rfl

/-! ## Claim C3 -/

/-- C3: the one-line lookahead decides the segment's owner as a pure function
of the adjacent line: a line containing the free-space token gives `FREE`;
otherwise a line containing the logical-volume marker, whose tokens are
`Logical volume <path> ...`, gives the final `/`-separated component of the
path; a line containing neither marker gives `UNKNOWN`.  Moreover the
segment branch of `step` appends exactly the segment owner returned by
`lookaheadLV` on the adjacent line. -/
theorem c3_lookahead_decides_owner :
    (∀ nraw, pyIn "FREE".data (pyStrip nraw) = true →
      lookaheadLV (some nraw) = some "FREE") ∧
    (∀ nraw p rest, pyIn "FREE".data (pyStrip nraw) = false →
      pyIn "Logical volume".data (pyStrip nraw) = true →
      pyTokens (pyStrip nraw) = "Logical".data :: "volume".data :: p :: rest →
      lookaheadLV (some nraw) = some (String.mk (lastComponent p))) ∧
    (∀ nraw, pyIn "FREE".data (pyStrip nraw) = false →
      pyIn "Logical volume".data (pyStrip nraw) = false →
      lookaheadLV (some nraw) = some "UNKNOWN") ∧
    (∀ s raw next? cp info a b lvn,
      pyStartsWith (pyStrip raw) "PV Name".data = false →
      pyStartsWith (pyStrip raw) "VG Name".data = false →
      pyStartsWith (pyStrip raw) "PV Size".data = false →
      pyStartsWith (pyStrip raw) "PE Size".data = false →
      pyStartsWith (pyStrip raw) "Free PE".data = false →
      pyStartsWith (pyStrip raw) "Total PE".data = false →
      pyStartsWith (pyStrip raw) "--- Physical Segments ---".data = false →
      s.in_segments = true →
      pyIn "Physical extent".data (pyStrip raw) = true →
      currentOf s = some cp →
      findExtent (pyStrip raw) = some (a, b) →
      lookaheadLV next? = some lvn →
      dictGet? cp s.pvs = some info →
      step s raw next? = some { s with pvs := dictInsert cp { info with segments := info.segments ++ [⟨a, b, lvn, qmul (mkRat ((b : ℤ) - (a : ℤ) + 1) 1) info.pe_size⟩] } s.pvs }) := by
  refine ⟨?_, ?_, ?_, ?_⟩
  · intro nraw h
    simp [lookaheadLV, h]
  · intro nraw p rest h1 h2 htok
    simp [lookaheadLV, h1, h2, htok]
  · intro nraw h1 h2
    simp [lookaheadLV, h1, h2]
  · intro s raw next? cp info a b lvn h1 h2 h3 h4 h5 h6 h7 hseg hin hcp hfe hla hget
    exact step_segment_append s raw next? cp info a b lvn h1 h2 h3 h4 h5 h6 h7
      hseg hin hcp hfe hla hget

/-- Witness for `c3_lookahead_decides_owner`: all four cases at concrete
adjacent lines (and, for the last, a concrete parser state). -/
theorem c3_lookahead_decides_owner_witness :
    lookaheadLV (some "    FREE".data) = some "FREE" ∧
    lookaheadLV (some "   Logical volume      /dev/vg0/lv-root".data) =
      some (String.mk (lastComponent "/dev/vg0/lv-root".data)) ∧
    lookaheadLV (some "  --- Physical volume ---".data) = some "UNKNOWN" ∧
    step ⟨[("/dev/sda", defaultPVInfo)], some "/dev/sda", true⟩
        ("Physical extent 3 to 7:".data) (some "    FREE".data) =
      some ⟨dictInsert "/dev/sda" { defaultPVInfo with segments := defaultPVInfo.segments ++ [⟨3, 7, "FREE", qmul (mkRat ((7 : ℤ) - (3 : ℤ) + 1) 1) defaultPVInfo.pe_size⟩] } [("/dev/sda", defaultPVInfo)], some "/dev/sda", true⟩ :=
  ⟨c3_lookahead_decides_owner.1 _ (by decide),
   c3_lookahead_decides_owner.2.1 ("   Logical volume      /dev/vg0/lv-root".data)
     ("/dev/vg0/lv-root".data) [] (by decide) (by decide) (by decide),
   c3_lookahead_decides_owner.2.2.1 _ (by decide) (by decide),
   c3_lookahead_decides_owner.2.2.2 ⟨[("/dev/sda", defaultPVInfo)], some "/dev/sda", true⟩
     ("Physical extent 3 to 7:".data) (some "    FREE".data) "/dev/sda" defaultPVInfo 3 7 "FREE"
     (by decide) (by decide) (by decide) (by decide) (by decide) (by decide) (by decide)
     rfl (by decide) rfl (by decide) (by decide) rfl⟩

/-! ## Claim C10 -/

theorem startsWith_both (l p q : List Char) (hp : pyStartsWith l p = true)
    (hq : pyStartsWith l q = true) :
    pyStartsWith p q = true ∨ pyStartsWith q p = true := by
  obtain ⟨t, rfl⟩ := (pyStartsWith_iff l p).mp hp
  rcases le_or_lt q.length p.length with h | h
  · left
    rw [← pyStartsWith_append_of_le p q t h]
    exact hq
  · right
    obtain ⟨t2, he⟩ := (pyStartsWith_iff _ q).mp hq
    apply (pyStartsWith_iff q p).mpr
    refine ⟨q.drop p.length, ?_⟩
    have h1 : q.take p.length = p := by
      have h2 := congrArg (List.take p.length) he
      rw [List.take_left] at h2
      rw [List.take_append_of_le_length (Nat.le_of_lt h)] at h2
      exact h2.symm
    conv_lhs => rw [← List.take_append_drop p.length q, h1]

/-- A string starting with `p` cannot also start with `q` when neither of
`p`, `q` is a prefix of the other. -/
theorem startsWith_excl (l p q : List Char) (hpq : pyStartsWith p q = false)
    (hqp : pyStartsWith q p = false) (hp : pyStartsWith l p = true) :
    pyStartsWith l q = false := by
  cases hlq : pyStartsWith l q with
  | false => rfl
  | true =>
    rcases startsWith_both l p q hp hlq with h | h
    · rw [h] at hpq
      exact absurd hpq (by simp)
    · rw [h] at hqp
      exact absurd hqp (by simp)

/-- Processing a `PE Size` line never changes any volume's segment list —
only the stored `pe_size` of the current volume. -/
theorem pe_size_line_preserves_segments (s : PState) (raw : List Char)
    (next? : Option (List Char)) (s' : PState)
    (hpe : pyStartsWith (pyStrip raw) "PE Size".data = true)
    (hstep : step s raw next? = some s') (pv : String) :
    (dictGet? pv s'.pvs).map PVInfo.segments = (dictGet? pv s.pvs).map PVInfo.segments := by
  have hPV : pyStartsWith (pyStrip raw) "PV Name".data = false :=
    startsWith_excl _ _ _ (by decide) (by decide) hpe
  have hVG : pyStartsWith (pyStrip raw) "VG Name".data = false :=
    startsWith_excl _ _ _ (by decide) (by decide) hpe
  have hPS : pyStartsWith (pyStrip raw) "PV Size".data = false :=
    startsWith_excl _ _ _ (by decide) (by decide) hpe
  have hDash : pyStartsWith (pyStrip raw) "--- Physical Segments ---".data = false :=
    startsWith_excl _ _ _ (by decide) (by decide) hpe
  unfold step at hstep
  dsimp only at hstep
  cases hC : currentOf s with
  | none =>
    simp only [hPV, hVG, hPS, hpe, hDash, hC, Option.isSome_none, Option.isSome_some,
      Bool.false_and, Bool.and_false, Bool.true_and, Bool.false_eq_true, if_false,
      ite_false] at hstep
    injection hstep with hstep
    rw [← hstep]
  | some cp =>
    simp only [hPV, hVG, hPS, hpe, hDash, hC, Option.isSome_none, Option.isSome_some,
      Bool.false_and, Bool.and_false, Bool.true_and, Bool.false_eq_true, if_false,
      ite_false, if_true, ite_true] at hstep
    split at hstep
    · injection hstep with hstep
      rw [← hstep]
    · rename_i num hnum
      split at hstep
      · exact (Option.noConfusion hstep)
      · rename_i info hget
        injection hstep with hstep
        subst hstep
        by_cases hpv : pv = cp
        · subst hpv
          rw [dictGet?_insert_self, hget]
          rfl
        · rw [dictGet?_insert_ne pv cp _ _ hpv]

/-- C10: a segment's size is computed with the extent size in effect when
its extent-range line is parsed: a fresh volume entry starts at the default
`pe_size = 4.19`; a `PE Size` line changes no already-appended segment of
any volume; and the segment branch computes the appended size as
`(end - start + 1) * pe_size` from the current volume's current `pe_size`. -/
theorem c10_pe_size_timing :
    defaultPVInfo.pe_size = 419 / 100 ∧
    (∀ s raw next? s', pyStartsWith (pyStrip raw) "PE Size".data = true →
      step s raw next? = some s' →
      ∀ pv, (dictGet? pv s'.pvs).map PVInfo.segments =
        (dictGet? pv s.pvs).map PVInfo.segments) ∧
    (∀ s raw next? cp info a b lvn,
      pyStartsWith (pyStrip raw) "PV Name".data = false →
      pyStartsWith (pyStrip raw) "VG Name".data = false →
      pyStartsWith (pyStrip raw) "PV Size".data = false →
      pyStartsWith (pyStrip raw) "PE Size".data = false →
      pyStartsWith (pyStrip raw) "Free PE".data = false →
      pyStartsWith (pyStrip raw) "Total PE".data = false →
      pyStartsWith (pyStrip raw) "--- Physical Segments ---".data = false →
      s.in_segments = true →
      pyIn "Physical extent".data (pyStrip raw) = true →
      currentOf s = some cp →
      findExtent (pyStrip raw) = some (a, b) →
      lookaheadLV next? = some lvn →
      dictGet? cp s.pvs = some info →
      step s raw next? = some { s with pvs := dictInsert cp { info with segments := info.segments ++ [⟨a, b, lvn, qmul (mkRat ((b : ℤ) - (a : ℤ) + 1) 1) info.pe_size⟩] } s.pvs }) := by
  refine ⟨?_, ?_, ?_⟩
  · show mkRat 419 100 = 419 / 100
    rw [Rat.mkRat_eq_div]
    norm_num
  · exact fun s raw next? s' hpe hstep pv =>
      pe_size_line_preserves_segments s raw next? s' hpe hstep pv
  · exact fun s raw next? cp info a b lvn h1 h2 h3 h4 h5 h6 h7 hseg hin hcp hfe hla hget =>
      step_segment_append s raw next? cp info a b lvn h1 h2 h3 h4 h5 h6 h7
        hseg hin hcp hfe hla hget

/-- Witness for `c10_pe_size_timing`: each conjunct at a concrete state. -/
theorem c10_pe_size_timing_witness :
    defaultPVInfo.pe_size = 419 / 100 ∧
    (dictGet? "/dev/sda" (⟨[("/dev/sda", { defaultPVInfo with pe_size := mkRat 8 1 })], some "/dev/sda", false⟩ : PState).pvs).map PVInfo.segments =
      (dictGet? "/dev/sda" (⟨[("/dev/sda", defaultPVInfo)], some "/dev/sda", false⟩ : PState).pvs).map PVInfo.segments ∧
    step ⟨[("/dev/sda", defaultPVInfo)], some "/dev/sda", true⟩
        ("Physical extent 3 to 7:".data) (some "    FREE".data) =
      some ⟨dictInsert "/dev/sda" { defaultPVInfo with segments := defaultPVInfo.segments ++ [⟨3, 7, "FREE", qmul (mkRat ((7 : ℤ) - (3 : ℤ) + 1) 1) defaultPVInfo.pe_size⟩] } [("/dev/sda", defaultPVInfo)], some "/dev/sda", true⟩ :=
  ⟨c10_pe_size_timing.1,
   c10_pe_size_timing.2.1 ⟨[("/dev/sda", defaultPVInfo)], some "/dev/sda", false⟩
     ("  PE Size               8.00 MB".data) none
     ⟨[("/dev/sda", { defaultPVInfo with pe_size := mkRat 8 1 })], some "/dev/sda", false⟩
     (by decide) (by decide) "/dev/sda",
   c10_pe_size_timing.2.2 ⟨[("/dev/sda", defaultPVInfo)], some "/dev/sda", true⟩
     ("Physical extent 3 to 7:".data) (some "    FREE".data) "/dev/sda" defaultPVInfo 3 7 "FREE"
     (by decide) (by decide) (by decide) (by decide) (by decide) (by decide) (by decide)
     rfl (by decide) rfl (by decide) (by decide) rfl⟩

/-! ## Claim C9 -/

/-- While no `PV Name` line has been seen (`current_pv` still `None`), every
line leaves `pvs` and `current_pv` unchanged (only `in_segments` may flip),
and no exception is raised. -/
theorem c9_go (lines : List (List Char)) :
    ∀ s : PState, (∀ l ∈ lines, pyStartsWith (pyStrip l) "PV Name".data = false) →
    s.current_pv = none →
    ∃ s', runLines s lines = some s' ∧ s'.pvs = s.pvs ∧ s'.current_pv = none := by
  induction lines with
  | nil =>
    intro s h hc
    exact ⟨s, rfl, rfl, hc⟩
  | cons l rest ih =>
    intro s h hc
    have hPV := h l (List.mem_cons_self l rest)
    have hcur : currentOf s = none := by simp only [currentOf, hc]
    obtain ⟨b, hstep⟩ : ∃ b, step s l rest.head? = some ⟨s.pvs, s.current_pv, b⟩ := by
      unfold step
      dsimp only
      rw [hPV]
      simp only [hcur, Option.isSome_none, Bool.and_false, Bool.false_eq_true, if_false,
        ite_false]
      split
      · exact ⟨true, rfl⟩
      · exact ⟨s.in_segments, rfl⟩
    obtain ⟨s', hrun, hp', hc'⟩ :=
      ih ⟨s.pvs, s.current_pv, b⟩ (fun x hx => h x (List.mem_cons_of_mem _ hx)) hc
    refine ⟨s', ?_, hp', hc'⟩
    rw [runLines, hstep]
    exact hrun

/-- C9: field and segment lines seen before any `PV Name` line produce no
entries; an input none of whose (stripped) lines starts with `PV Name`
parses to the empty mapping. -/
theorem c9_no_pv_name_empty (content : String)
    (h : ∀ l ∈ splitOnChar '\n' (pyStrip content.data),
      pyStartsWith (pyStrip l) "PV Name".data = false) :
    parse_pvdisplay content = some [] := by
  obtain ⟨s', hrun, hp, -⟩ := c9_go (splitOnChar '\n' (pyStrip content.data)) initState h rfl
  rw [parse_pvdisplay, hrun]
  show some s'.pvs = some []
  rw [hp]
  rfl

/-- Witness for `c9_no_pv_name_empty`: an input full of field and segment
lines but with no `PV Name` line parses to the empty mapping. -/
theorem c9_no_pv_name_empty_witness :
    parse_pvdisplay "  --- Physical volume ---\n  VG Name vg0\n  Total PE 99\n  Physical extent 0 to 5:\n  FREE" = some [] :=
  c9_no_pv_name_empty _ (by decide)

/-! ## Claim C5 -/

/-- The used/free filters of `print_summary` split the total segment sum. -/
theorem filter_sum_split (l : List Segment) :
    ((l.filter (fun g => g.lv ≠ "FREE")).map Segment.size).sum +
    ((l.filter (fun g => g.lv = "FREE")).map Segment.size).sum =
    (l.map Segment.size).sum := by
  induction l with
  | nil => simp
  | cons g rest ih =>
    simp only [ne_eq, decide_not, List.filter_cons, List.map_cons, List.sum_cons] at ih ⊢
    cases hb : decide (g.lv = "FREE") with
    | false =>
      simp only [hb, Bool.not_false, if_true, if_false, ite_true, ite_false,
        Bool.false_eq_true, List.map_cons, List.sum_cons]
      rw [← ih]
      ring
    | true =>
      simp only [hb, Bool.not_true, if_true, if_false, ite_true, ite_false,
        Bool.false_eq_true, List.map_cons, List.sum_cons]
      rw [← ih]
      ring

theorem disjoint_foldr_union (a : Finset ℕ) (l : List (Finset ℕ)) (h : ∀ b ∈ l, Disjoint a b) :
    Disjoint a (l.foldr (· ∪ ·) ∅) := by
  induction l with
  | nil => simp
  | cons b rest ih =>
    simp only [List.foldr]
    rw [Finset.disjoint_union_right]
    exact ⟨h b (List.mem_cons_self _ _), ih (fun x hx => h x (List.mem_cons_of_mem _ hx))⟩

theorem foldr_union_card (l : List (Finset ℕ)) (h : l.Pairwise Disjoint) :
    (l.foldr (· ∪ ·) ∅).card = (l.map Finset.card).sum := by
  induction l with
  | nil => simp
  | cons a rest ih =>
    rw [List.pairwise_cons] at h
    simp only [List.foldr, List.map_cons, List.sum_cons]
    rw [Finset.card_union_of_disjoint (disjoint_foldr_union a rest h.1), ih h.2]

theorem sum_map_size_mul (l : List Segment) (E : ℚ)
    (h : ∀ g ∈ l, Segment.size g = ((segIcc g).card : ℚ) * E) :
    (l.map Segment.size).sum = (((l.map (fun g => (segIcc g).card)).sum : ℕ) : ℚ) * E := by
  induction l with
  | nil => simp
  | cons g rest ih =>
    simp only [List.map_cons, List.sum_cons]
    rw [h g (List.mem_cons_self _ _), ih (fun x hx => h x (List.mem_cons_of_mem _ hx)),
      Nat.cast_add, add_mul]

/-- C5: if a volume's segments exactly cover `[0, T-1]` with no gaps or
overlaps, each with the size `(end - start + 1) * E` the parser stores, then
the summary's used size plus free size equals `T * E`, the volume's total
capacity. -/
theorem c5_coverage_totals (info : PVInfo) (T : ℕ) (E : ℚ)
    (hT : info.total_pe = (T : ℤ)) (hE : info.pe_size = E)
    (hsize : ∀ g ∈ info.segments, g.size = ((g.stop : ℚ) - (g.start : ℚ) + 1) * E)
    (hcov : coversExactly info.segments T) :
    usedSize info + freeSize info = (T : ℚ) * E := by
  obtain ⟨hwf, hdisj, hun⟩ := hcov
  rw [usedSize, freeSize, qsum_eq, qsum_eq, filter_sum_split]
  have hsize2 : ∀ g ∈ info.segments, Segment.size g = ((segIcc g).card : ℚ) * E := by
    intro g hg
    rw [hsize g hg, segIcc, Nat.card_Icc]
    congr 1
    have h1 : g.start ≤ g.stop + 1 := le_trans (hwf g hg) (Nat.le_succ _)
    rw [Nat.cast_sub h1]
    push_cast
    ring
  rw [sum_map_size_mul info.segments E hsize2]
  have hp : (info.segments.map segIcc).Pairwise Disjoint := (List.pairwise_map).mpr hdisj
  have hc := foldr_union_card (info.segments.map segIcc) hp
  rw [hun, Finset.card_range, List.map_map] at hc
  simp only [Function.comp_def] at hc
  rw [← hc]

/-- Witness for `c5_coverage_totals` at the concrete volume `coveragePV`. -/
theorem c5_coverage_totals_witness :
    usedSize coveragePV + freeSize coveragePV = (5 : ℚ) * mkRat 419 100 := by
  refine c5_coverage_totals coveragePV 5 (mkRat 419 100) (by decide) rfl ?_ ?_
  · intro g hg
    rw [coveragePV] at hg
    simp only [List.mem_cons, List.not_mem_nil, or_false] at hg
    rcases hg with rfl | rfl
    · show mkRat 419 50 = (((1 : ℕ) : ℚ) - ((0 : ℕ) : ℚ) + 1) * mkRat 419 100
      rw [Rat.mkRat_eq_div, Rat.mkRat_eq_div]
      norm_num
    · show mkRat 1257 100 = (((4 : ℕ) : ℚ) - ((2 : ℕ) : ℚ) + 1) * mkRat 419 100
      rw [Rat.mkRat_eq_div, Rat.mkRat_eq_div]
      norm_num
  · refine ⟨by decide, ?_, by decide⟩
    decide


/-! ## Claim C4 -/

theorem pyLexLt_asymm (a b : List Char) (h : pyLexLt a b = true) : pyLexLt b a = false := by
  induction a generalizing b with
  | nil =>
    cases b with
    | nil => simp [pyLexLt] at h
    | cons c cs => simp [pyLexLt]
  | cons x xs ih =>
    cases b with
    | nil => simp [pyLexLt] at h
    | cons y ys =>
      simp only [pyLexLt, Bool.or_eq_true, Bool.and_eq_true, beq_iff_eq,
        decide_eq_true_eq] at h
      rcases h with h | ⟨rfl, h⟩
      · have h1 : ¬ y < x := lt_asymm h
        have h2 : y ≠ x := ne_of_gt h
        simp [pyLexLt, h1, h2]
      · have h1 : ¬ x < x := lt_irrefl x
        simp [pyLexLt, h1, ih _ h]

theorem pyLexLt_trans (a b c : List Char) (h1 : pyLexLt a b = true)
    (h2 : pyLexLt b c = true) : pyLexLt a c = true := by
  induction a generalizing b c with
  | nil =>
    cases c with
    | nil =>
      cases b with
      | nil => simp [pyLexLt] at h1
      | cons y ys => simp [pyLexLt] at h2
    | cons z zs => simp [pyLexLt]
  | cons x xs ih =>
    cases b with
    | nil => simp [pyLexLt] at h1
    | cons y ys =>
      cases c with
      | nil => simp [pyLexLt] at h2
      | cons z zs =>
        simp only [pyLexLt, Bool.or_eq_true, Bool.and_eq_true, beq_iff_eq,
          decide_eq_true_eq] at h1 h2 ⊢
        rcases h1 with h1 | ⟨rfl, h1⟩
        · rcases h2 with h2 | ⟨rfl, h2⟩
          · exact Or.inl (lt_trans h1 h2)
          · exact Or.inl h1
        · rcases h2 with h2 | ⟨rfl, h2⟩
          · exact Or.inl h2
          · exact Or.inr ⟨rfl, ih ys zs h1 h2⟩

theorem pyLexLt_connex (a b : List Char) (h : a ≠ b) :
    pyLexLt a b = true ∨ pyLexLt b a = true := by
  induction a generalizing b with
  | nil =>
    cases b with
    | nil => exact absurd rfl h
    | cons c cs => exact Or.inl (by simp [pyLexLt])
  | cons x xs ih =>
    cases b with
    | nil => exact Or.inr (by simp [pyLexLt])
    | cons y ys =>
      rcases lt_trichotomy x y with hxy | rfl | hxy
      · exact Or.inl (by simp [pyLexLt, hxy])
      · have hne : xs ≠ ys := fun he => h (by rw [he])
        rcases ih ys hne with h1 | h1
        · exact Or.inl (by simp [pyLexLt, h1])
        · exact Or.inr (by simp [pyLexLt, h1])
      · exact Or.inr (by simp [pyLexLt, hxy])

theorem pyStrLeRel_total (a b : String) : pyStrLeRel a b ∨ pyStrLeRel b a := by
  unfold pyStrLeRel pyStrLe
  cases h : pyLexLt b.data a.data
  · exact Or.inl (by simp)
  · exact Or.inr (by simp [pyLexLt_asymm _ _ h])

theorem pyStrLeRel_trans (a b c : String) (h1 : pyStrLeRel a b) (h2 : pyStrLeRel b c) :
    pyStrLeRel a c := by
  unfold pyStrLeRel pyStrLe at h1 h2 ⊢
  simp only [Bool.not_eq_true', Bool.not_eq_false] at h1 h2 ⊢
  by_contra hca
  simp only [Bool.not_eq_false] at hca
  by_cases hbc : c.data = b.data
  · rw [hbc] at hca
    rw [hca] at h1
    exact Bool.noConfusion h1
  · rcases pyLexLt_connex b.data c.data (fun he => hbc he.symm) with h | h
    · have := pyLexLt_trans b.data c.data a.data h hca
      rw [this] at h1
      exact Bool.noConfusion h1
    · rw [h] at h2
      exact Bool.noConfusion h2

theorem pyStrLeRel_antisymm (a b : String) (h1 : pyStrLeRel a b) (h2 : pyStrLeRel b a) :
    a = b := by
  unfold pyStrLeRel pyStrLe at h1 h2
  simp only [Bool.not_eq_true', Bool.not_eq_false] at h1 h2
  by_cases h : a.data = b.data
  · cases a with
    | mk la =>
      cases b with
      | mk lb => exact congrArg String.mk h
  · rcases pyLexLt_connex a.data b.data h with hl | hl
    · rw [hl] at h2
      exact Bool.noConfusion h2
    · rw [hl] at h1
      exact Bool.noConfusion h1

theorem sortedLvs_nodup (pvs : List (String × PVInfo)) : (sortedLvs pvs).Nodup :=
  ((List.perm_insertionSort pyStrLeRel (allLvs pvs).dedup).nodup_iff).mpr
    (List.nodup_dedup (allLvs pvs))

theorem sortedLvs_mem (pvs : List (String × PVInfo)) (x : String) :
    x ∈ sortedLvs pvs ↔ x ∈ allLvs pvs := by
  rw [sortedLvs, pySorted, (List.perm_insertionSort pyStrLeRel _).mem_iff, List.mem_dedup]

theorem sortedLvs_eq_of_toFinset_eq (pvs1 pvs2 : List (String × PVInfo))
    (h : (allLvs pvs1).toFinset = (allLvs pvs2).toFinset) :
    sortedLvs pvs1 = sortedLvs pvs2 := by
  haveI i1 : IsTotal String pyStrLeRel := ⟨pyStrLeRel_total⟩
  haveI i2 : IsTrans String pyStrLeRel := ⟨fun a b c => pyStrLeRel_trans a b c⟩
  haveI i3 : IsAntisymm String pyStrLeRel := ⟨pyStrLeRel_antisymm⟩
  apply List.eq_of_perm_of_sorted (r := pyStrLeRel)
  · apply List.perm_of_nodup_nodup_toFinset_eq (sortedLvs_nodup pvs1) (sortedLvs_nodup pvs2)
    rw [sortedLvs, sortedLvs, pySorted, pySorted,
      List.toFinset_eq_of_perm _ _ (List.perm_insertionSort pyStrLeRel (allLvs pvs1).dedup),
      List.toFinset_eq_of_perm _ _ (List.perm_insertionSort pyStrLeRel (allLvs pvs2).dedup)]
    have hd1 : (allLvs pvs1).dedup.toFinset = (allLvs pvs1).toFinset := by
      ext x
      simp
    have hd2 : (allLvs pvs2).dedup.toFinset = (allLvs pvs2).toFinset := by
      ext x
      simp
    rw [hd1, hd2, h]
  · exact List.sorted_insertionSort pyStrLeRel _
  · exact List.sorted_insertionSort pyStrLeRel _

theorem assignGo_free (names : List String) (idx : ℕ) (h : "FREE" ∈ names) :
    dictGet? "FREE" (assignColorsGo idx names) = some "#E8E8E8" := by
  induction names generalizing idx with
  | nil => simp at h
  | cons n rest ih =>
    by_cases hn : n = "FREE"
    · subst hn
      simp [assignColorsGo, dictGet?]
    · have h2 : "FREE" ∈ rest := by
        rcases List.mem_cons.mp h with h | h
        · exact absurd h.symm hn
        · exact h
      simp only [assignColorsGo, hn, if_false, ite_false, dictGet?]
      exact ih (idx + 1) h2

theorem assignGo_nonfree (names : List String) :
    ∀ (idx i : ℕ), names.Nodup →
    ∀ (hi : i < (names.filter (fun n => n ≠ "FREE")).length),
    dictGet? ((names.filter (fun n => n ≠ "FREE")).get ⟨i, hi⟩) (assignColorsGo idx names) =
      some (color_palette.getD ((idx + i) % color_palette.length) "") := by
  induction names with
  | nil =>
    intro idx i hnd hi
    simp at hi
  | cons n rest ih =>
    intro idx i hnd hi
    by_cases hn : n = "FREE"
    · subst hn
      have hf : (("FREE" :: rest).filter (fun n => n ≠ "FREE")) =
          rest.filter (fun n => n ≠ "FREE") := by
        simp [List.filter_cons]
      have hi2 : i < (rest.filter (fun n => n ≠ "FREE")).length := by
        rw [← hf]
        exact hi
      rw [List.get_of_eq hf ⟨i, hi⟩]
      have hxne : (rest.filter (fun n => n ≠ "FREE")).get ⟨i, hi2⟩ ≠ "FREE" := by
        have hmf := List.of_mem_filter (List.get_mem (rest.filter (fun n => n ≠ "FREE")) i hi2)
        simpa using hmf
      simp only [assignColorsGo, if_pos rfl, ite_true, dictGet?]
      rw [if_neg (fun he => hxne he.symm)]
      exact ih idx i hnd.of_cons hi2
    · have hf : ((n :: rest).filter (fun g => g ≠ "FREE")) =
          n :: rest.filter (fun g => g ≠ "FREE") := by
        simp [List.filter_cons, hn]
      cases i with
      | zero =>
        have hget : ((n :: rest).filter (fun g => g ≠ "FREE")).get ⟨0, hi⟩ = n := by
          rw [List.get_of_eq hf]
          rfl
        rw [hget]
        simp only [assignColorsGo, hn, if_false, ite_false, dictGet?]
        rw [if_pos trivial, Nat.add_zero]
      | succ j =>
        have hj : j < (rest.filter (fun g => g ≠ "FREE")).length := by
          have := hi
          rw [hf] at this
          simpa using this
        have hget : ((n :: rest).filter (fun g => g ≠ "FREE")).get ⟨j + 1, hi⟩ =
            (rest.filter (fun g => g ≠ "FREE")).get ⟨j, hj⟩ := by
          rw [List.get_of_eq hf]
          rfl
        rw [hget]
        have hmem : (rest.filter (fun g => g ≠ "FREE")).get ⟨j, hj⟩ ∈ rest :=
          List.mem_of_mem_filter (List.get_mem _ j hj)
        have hne : n ≠ (rest.filter (fun g => g ≠ "FREE")).get ⟨j, hj⟩ := by
          intro he
          exact (List.nodup_cons.mp hnd).1 (he ▸ hmem)
        simp only [assignColorsGo, hn, if_false, ite_false, dictGet?]
        rw [if_neg hne]
        rw [ih (idx + 1) j (List.nodup_cons.mp hnd).2 hj,
          show idx + 1 + j = idx + (j + 1) from by omega]

/-- C4: `assign_colors` is a deterministic function of the set of distinct
logical-volume names: `FREE` always maps to the fixed neutral `#E8E8E8`;
the `i`-th non-free name in sorted order maps to the palette color at index
`i mod len(palette)`; and two volume maps with the same set of names (in any
parse order) get identical color assignments. -/
theorem c4_assign_colors_deterministic :
    (∀ pvs, "FREE" ∈ allLvs pvs → dictGet? "FREE" (assign_colors pvs) = some "#E8E8E8") ∧
    (∀ pvs i, ∀ hi : i < ((sortedLvs pvs).filter (fun n => n ≠ "FREE")).length,
      dictGet? (((sortedLvs pvs).filter (fun n => n ≠ "FREE")).get ⟨i, hi⟩)
          (assign_colors pvs) =
        some (color_palette.getD (i % color_palette.length) "")) ∧
    (∀ pvs1 pvs2, (allLvs pvs1).toFinset = (allLvs pvs2).toFinset →
      assign_colors pvs1 = assign_colors pvs2) := by
  refine ⟨?_, ?_, ?_⟩
  · intro pvs h
    exact assignGo_free (sortedLvs pvs) 0 ((sortedLvs_mem pvs "FREE").mpr h)
  · intro pvs i hi
    have h := assignGo_nonfree (sortedLvs pvs) 0 i (sortedLvs_nodup pvs) hi
    rwa [Nat.zero_add] at h
  · intro pvs1 pvs2 h
    unfold assign_colors
    rw [sortedLvs_eq_of_toFinset_eq pvs1 pvs2 h]

/-- Witness for `c4_assign_colors_deterministic` on concrete volume maps. -/
theorem c4_assign_colors_deterministic_witness :
    dictGet? "FREE" (assign_colors [("/dev/sda", coveragePV)]) = some "#E8E8E8" ∧
    dictGet? (((sortedLvs [("/dev/sda", coveragePV)]).filter (fun n => n ≠ "FREE")).get
        ⟨0, by decide⟩) (assign_colors [("/dev/sda", coveragePV)]) =
      some (color_palette.getD (0 % color_palette.length) "") ∧
    assign_colors [("/dev/sda", coveragePV)] =
      assign_colors [("/dev/sdb", { coveragePV with segments := [⟨2, 4, "FREE", mkRat 1257 100⟩, ⟨0, 1, "lv-a", mkRat 419 50⟩] })] :=
  ⟨c4_assign_colors_deterministic.1 _ (by decide),
   c4_assign_colors_deterministic.2.1 _ 0 (by decide),
   c4_assign_colors_deterministic.2.2 _ _ (by decide)⟩

/-! ## Claim C2 -/

/-- Every successful parsing step preserves the invariant that a truthy
`current_pv` is a key of the dict. -/
theorem step_preserves_Inv (s : PState) (raw : List Char) (next? : Option (List Char))
    (s' : PState) (hInv : Inv s) (h : step s raw next? = some s') : Inv s' := by
  unfold step at h
  dsimp only at h
  repeat' split at h
  all_goals (first | exact (Option.noConfusion h) | (injection h with h; subst h))
  all_goals try exact hInv
  all_goals try (intro c hc; exact dictGet?_insert_isSome _ _ _ _ (hInv c hc))
  all_goals
    intro c hc
    simp only [currentOf] at hc
    split at hc
    · exact Option.noConfusion hc
    · injection hc with hc
      subst hc
      rw [dictGet?_insert_self]
      rfl

/-- The one-line lookahead raises no exception provided an adjacent line
naming a logical volume (and not free space) has at least three tokens. -/
theorem lookaheadLV_isSome (next? : Option (List Char))
    (h : ∀ nraw, next? = some nraw → pyIn "FREE".data (pyStrip nraw) = false →
      pyIn "Logical volume".data (pyStrip nraw) = true →
      2 < (pyTokens (pyStrip nraw)).length) :
    (lookaheadLV next?).isSome = true := by
  cases next? with
  | none => rfl
  | some nraw =>
    unfold lookaheadLV
    dsimp only
    by_cases hFR : pyIn "FREE".data (pyStrip nraw) = true
    · simp only [hFR, if_true, ite_true, Option.isSome_some]
    · rw [Bool.not_eq_true] at hFR
      by_cases hLV : pyIn "Logical volume".data (pyStrip nraw) = true
      · rw [List.get?_eq_get (h nraw rfl hFR hLV)]
        simp only [hFR, hLV, Bool.false_eq_true, if_false, ite_false, if_true, ite_true,
          Option.isSome_some]
      · rw [Bool.not_eq_true] at hLV
        simp only [hFR, hLV, Bool.false_eq_true, if_false, ite_false, Option.isSome_some]

/-- A parsing step on a `lineSafe` line raises no exception. -/
theorem step_safe_isSome (s : PState) (raw : List Char) (next? : Option (List Char))
    (hInv : Inv s) (hsafe : lineSafe raw next? = true) : (step s raw next?).isSome = true := by
  unfold lineSafe at hsafe
  dsimp only at hsafe
  rw [Bool.and_eq_true, Bool.and_eq_true] at hsafe
  obtain ⟨⟨hA, hB⟩, hC⟩ := hsafe
  unfold step
  dsimp only
  by_cases g1 : pyStartsWith (pyStrip raw) "PV Name".data = true
  · rw [g1, Bool.true_or, if_pos rfl] at hA
    have h3 : 2 < (pyTokens (pyStrip raw)).length := by
      have := of_decide_eq_true hA
      omega
    rw [List.get?_eq_get h3]
    simp [g1]
  · rw [Bool.not_eq_true] at g1
    by_cases gC : (currentOf s).isSome = true
    · obtain ⟨cp, hcp⟩ := Option.isSome_iff_exists.mp gC
      obtain ⟨info, hinfo⟩ := Option.isSome_iff_exists.mp (hInv cp hcp)
      by_cases gV : pyStartsWith (pyStrip raw) "VG Name".data = true
      · rw [g1, Bool.false_or, gV, if_pos rfl] at hA
        have h3 : 2 < (pyTokens (pyStrip raw)).length := by
          have := of_decide_eq_true hA
          omega
        rw [List.get?_eq_get h3]
        simp [g1, gV, gC, hcp, hinfo]
      · rw [Bool.not_eq_true] at gV
        by_cases gPS : pyStartsWith (pyStrip raw) "PV Size".data = true
        · cases hF : findNumber (pyStrip raw) with
          | none => simp [g1, gV, gPS, gC, hcp, hinfo, hF]
          | some num => simp [g1, gV, gPS, gC, hcp, hinfo, hF]
        · rw [Bool.not_eq_true] at gPS
          by_cases gPE : pyStartsWith (pyStrip raw) "PE Size".data = true
          · cases hF : findNumber (pyStrip raw) with
            | none => simp [g1, gV, gPS, gPE, gC, hcp, hinfo, hF]
            | some num => simp [g1, gV, gPS, gPE, gC, hcp, hinfo, hF]
          · rw [Bool.not_eq_true] at gPE
            by_cases gF : pyStartsWith (pyStrip raw) "Free PE".data = true
            · rw [gF, Bool.true_or, if_pos rfl] at hB
              cases htok : (pyTokens (pyStrip raw)).get? 2 with
              | none => rw [htok] at hB; exact absurd hB (by simp)
              | some t =>
                rw [htok] at hB
                obtain ⟨n, hn⟩ := Option.isSome_iff_exists.mp hB
                simp [g1, gV, gPS, gPE, gF, gC, hcp, hinfo, htok, hn]
            · rw [Bool.not_eq_true] at gF
              by_cases gT : pyStartsWith (pyStrip raw) "Total PE".data = true
              · rw [gF, gT, Bool.false_or, if_pos rfl] at hB
                cases htok : (pyTokens (pyStrip raw)).get? 2 with
                | none => rw [htok] at hB; exact absurd hB (by simp)
                | some t =>
                  rw [htok] at hB
                  obtain ⟨n, hn⟩ := Option.isSome_iff_exists.mp hB
                  simp [g1, gV, gPS, gPE, gF, gT, gC, hcp, hinfo, htok, hn]
              · rw [Bool.not_eq_true] at gT
                by_cases gD : pyStartsWith (pyStrip raw) "--- Physical Segments ---".data = true
                · simp [g1, gV, gPS, gPE, gF, gT, gD]
                · rw [Bool.not_eq_true] at gD
                  by_cases gSeg : (s.in_segments && pyIn "Physical extent".data (pyStrip raw) && (currentOf s).isSome) = true
                  · rw [Bool.and_eq_true, Bool.and_eq_true] at gSeg
                    obtain ⟨⟨gI, gP⟩, -⟩ := gSeg
                    cases hF : findExtent (pyStrip raw) with
                    | none => simp [g1, gV, gPS, gPE, gF, gT, gD, gI, gP, gC, hcp, hinfo, hF]
                    | some ab =>
                      obtain ⟨a, b⟩ := ab
                      have hla0 : (lookaheadLV next?).isSome = true := by
                        apply lookaheadLV_isSome
                        intro nraw hnr hFR hLV
                        subst hnr
                        dsimp only at hC
                        simp only [gP, hFR, hLV, Bool.not_false, Bool.and_true, Bool.true_and,
                          if_pos rfl, if_true, ite_true] at hC
                        have := of_decide_eq_true hC
                        omega
                      have hla : ∃ lvn, lookaheadLV next? = some lvn :=
                        Option.isSome_iff_exists.mp hla0
                      obtain ⟨lvn, hlv⟩ := hla
                      simp [g1, gV, gPS, gPE, gF, gT, gD, gI, gP, gC, hcp, hinfo, hF, hlv]
                  · rw [Bool.not_eq_true] at gSeg
                    simp [g1, gV, gPS, gPE, gF, gT, gD, gSeg]
    · rw [Bool.not_eq_true] at gC
      simp only [g1, gC, Bool.and_false, Bool.false_eq_true, if_false, ite_false]
      split
      · rfl
      · rfl

theorem runLines_safe_isSome (lines : List (List Char)) :
    ∀ s : PState, Inv s → linesSafe lines = true → (runLines s lines).isSome = true := by
  induction lines with
  | nil =>
    intro s _ _
    rfl
  | cons l rest ih =>
    intro s hInv hsafe
    rw [linesSafe, Bool.and_eq_true] at hsafe
    obtain ⟨h1, h2⟩ := hsafe
    obtain ⟨s', hs'⟩ := Option.isSome_iff_exists.mp (step_safe_isSome s l rest.head? hInv h1)
    rw [runLines, hs']
    exact ih s' (step_preserves_Inv s l rest.head? s' hInv hs') h2

/-- C2 counterexample: on the input consisting of the single line
`PV Name`, the prefix matches but `line.split()[2]` does not exist; the
parser raises `IndexError` instead of returning a mapping, refuting
exception-freedom on arbitrary input. -/
theorem c2_counterexample_crash : parse_pvdisplay "PV Name" = none := by decide

/-- C2 (amended): `parse_pvdisplay` raises no exception on every input
satisfying `linesSafe`: each line whose stripped form starts with `PV Name`
or `VG Name` has at least three whitespace tokens, each line starting with
`Free PE` or `Total PE` has an integer-literal third token, and each line
following an extent-range line that names a logical volume (without the
free marker) has at least three tokens.  Lines matching no recognized
prefix are skipped, and a `PV Size`/`PE Size` line without a numeric match
keeps the default (the `some s` branches of `step`); but the original
claim's "any input" and "malformed numeric fields keep defaults" fail for
the `int(...)` fields (`c2_counterexample_crash`). -/
theorem c2_amended_no_exception (content : String)
    (h : linesSafe (splitOnChar '\n' (pyStrip content.data)) = true) :
    (parse_pvdisplay content).isSome = true := by
  have hInv : Inv initState := fun cp hcp => Option.noConfusion hcp
  obtain ⟨s', hs'⟩ := Option.isSome_iff_exists.mp
    (runLines_safe_isSome (splitOnChar '\n' (pyStrip content.data)) initState hInv h)
  rw [parse_pvdisplay, hs']
  rfl

/-- Witness for `c2_amended_no_exception` on the concrete `exampleInput`. -/
theorem c2_amended_no_exception_witness : (parse_pvdisplay exampleInput).isSome = true :=
  c2_amended_no_exception exampleInput (by decide)

end LVM
